import Mathlib

/-!
Verification development for the Lennard-Jones potential visualizer (app.py).

The script computes the Lennard-Jones potential
  U(r) = 4 * eps * ((sig / r)^12 - (sig / r)^6),
samples it on a 1000-point evenly spaced grid over [max(0.3*sig, 0.01), 4*sig],
and serializes the sampled curve to CSV text.

The embedding is polymorphic over the scalar field where the source formula is
pure field arithmetic: the real-number instance serves the analytic claims
(minimum location, monotonic shape, asymptotics), while the rational-number
instance gives an executable model of the sampling/export pipeline (the source
computes with IEEE doubles; exact field arithmetic is the idealized semantics
the specification is written against, as the spec itself disclaims
numerical-stability concerns).
-/

open Filter

set_option maxRecDepth 8000

/-- Source app.py, function lj_U: U(r) = 4*eps*((sig/r)^12 - (sig/r)^6).
Argument order (r, eps, sig) matches the source. -/
def lj_U {K : Type} [Field K] (r eps sig : K) : K :=
  4 * eps * ((sig / r) ^ 12 - (sig / r) ^ 6)

/-- Element-wise application of lj_U over an ordered sequence of r values,
modelling the numpy broadcast in lj_U (r = np.asarray(r); vectorized ops). -/
def lj_U_vec {K : Type} [Field K] (rs : List K) (eps sig : K) : List K :=
  rs.map (fun x => lj_U x eps sig)

/-- Source app.py line 37: r_min = 2**(1/6) * sigma. -/
noncomputable def r_min (sig : ℝ) : ℝ :=
  2 ^ ((1 : ℝ) / 6) * sig

/-- Source app.py line 38: U_min = -epsilon. -/
def U_min (eps : ℝ) : ℝ :=
  -eps

/-- Source app.py line 42: r_lo = max(0.3 * sigma, 0.01). -/
def r_lo (sig : ℚ) : ℚ :=
  max (0.3 * sig) 0.01

/-- Source app.py line 43: r_hi = 4.0 * sigma. -/
def r_hi (sig : ℚ) : ℚ :=
  4.0 * sig

/-- np.linspace(lo, hi, n): n evenly spaced points, point i at
lo + (hi - lo) * i / (n - 1). -/
def linspace (lo hi : ℚ) (n : ℕ) : List ℚ :=
  (List.range n).map (fun i : ℕ => lo + (hi - lo) * (i : ℚ) / ((n : ℚ) - 1))

/-- Source app.py line 44 (named r in the source):
r = np.linspace(r_lo, r_hi, 1000). -/
def r_grid (sig : ℚ) : List ℚ :=
  linspace (r_lo sig) (r_hi sig) 1000

/-- Closed form of grid point i of r_grid (proof scaffolding: the value the
linspace lambda assigns to index i). -/
def gridPoint (sig : ℚ) (i : ℕ) : ℚ :=
  r_lo sig + (r_hi sig - r_lo sig) * (i : ℚ) / (((1000 : ℕ) : ℚ) - 1)

/-- Source app.py line 45 (named U in the source): U = lj_U(r, epsilon, sigma). -/
def U_grid (eps sig : ℚ) : List ℚ :=
  lj_U_vec (r_grid sig) eps sig

/-- Division as numpy performs it inside lj_U: the one operation of the
source expression that can fault. Division by zero is the fault, modelled as
none. -/
def npdiv (a b : ℚ) : Option ℚ :=
  if b = 0 then none else some (a / b)

/-- Fault-sensitive evaluation of the body of lj_U: the quotient sig / r is the
only subterm that can fault; the powers have the integer exponents 12 and 6
and the remaining arithmetic is total. -/
def lj_U_checked (r eps sig : ℚ) : Option ℚ :=
  (npdiv sig r).map (fun x => 4 * eps * (x ^ 12 - x ^ 6))

/-- Fixed-point decimal rendering with d fractional digits, modelling the
Python format specifier that writes a value with exactly d decimals. -/
def fmtFixed (d : ℕ) (x : ℚ) : String :=
  let n : ℤ := round (x * (10 : ℚ) ^ d)
  let sign : String := if n < 0 then "-" else ""
  let ip : String := toString (n.natAbs / 10 ^ d)
  let fp : String := toString (n.natAbs % 10 ^ d)
  let pad : String := String.mk (List.replicate (d - fp.length) '0')
  sign ++ ip ++ "." ++ pad ++ fp

/-- One CSV data row, source app.py line 128: r with 6 decimals, U with 8,
comma-separated, newline-terminated. -/
def csvRow (p : ℚ × ℚ) : String :=
  fmtFixed 6 p.1 ++ "," ++ fmtFixed 8 p.2 ++ "\n"

/-- The data rows of the CSV export, one per point of zip(r, U), in grid
order (the loop of app.py lines 127-128). -/
def csvRows (eps sig : ℚ) : List String :=
  ((r_grid sig).zip (U_grid eps sig)).map csvRow

/-- The full CSV text of the export buffer (app.py lines 125-128): header row
then the data rows. -/
def csv_text (eps sig : ℚ) : String :=
  "r_nm,U_eV\n" ++ String.join (csvRows eps sig)

/-- The Parameters snapshot of one render cycle: the three sidebar inputs. -/
structure Params where
  epsilon : ℚ
  sigma : ℚ
  r_value : ℚ
deriving DecidableEq

/-- One full pipeline pass from a Parameters snapshot: the sample grid, the
potential values on it, the potential at the input distance, and the CSV
export text. -/
def pipeline (p : Params) : List ℚ × List ℚ × ℚ × String :=
  (r_grid p.sigma, U_grid p.epsilon p.sigma,
    lj_U p.r_value p.epsilon p.sigma, csv_text p.epsilon p.sigma)

/-! ## Helper lemmas -/

theorem linspace_length (lo hi : ℚ) (n : ℕ) : (linspace lo hi n).length = n := by
  rw [linspace, List.length_map, List.length_range]

theorem linspace_getElem? (lo hi : ℚ) {i n : ℕ} (h : i < n) :
    (linspace lo hi n)[i]? = some (lo + (hi - lo) * (i : ℚ) / ((n : ℚ) - 1)) := by
  rw [linspace, List.getElem?_map, List.getElem?_range h, Option.map_some']

theorem linspace_getD (lo hi : ℚ) {i n : ℕ} (h : i < n) :
    (linspace lo hi n).getD i 0 = lo + (hi - lo) * (i : ℚ) / ((n : ℚ) - 1) := by
  rw [List.getD_eq_getElem?_getD, linspace_getElem? lo hi h]
  rfl

theorem r_grid_getD (sig : ℚ) {i : ℕ} (h : i < 1000) :
    (r_grid sig).getD i 0
      = r_lo sig + (r_hi sig - r_lo sig) * (i : ℚ) / ((1000 : ℚ) - 1) := by
  rw [r_grid, linspace_getD _ _ h]
  norm_num

/-! ## C1: the potential formula and its element-wise application -/

/-- C1: for every r > 0 and every eps, sig, lj_U returns exactly
4*eps*((sig/r)^12 - (sig/r)^6); applied to an ordered sequence of r values it
returns the element-wise image, with the same length (shape) as its input. -/
theorem lj_U_formula_and_elementwise (r eps sig : ℝ) (hr : 0 < r) :
    lj_U r eps sig = 4 * eps * ((sig / r) ^ 12 - (sig / r) ^ 6) ∧
    (∀ rs : List ℝ,
      lj_U_vec rs eps sig
        = rs.map (fun x => 4 * eps * ((sig / x) ^ 12 - (sig / x) ^ 6)) ∧
      (lj_U_vec rs eps sig).length = rs.length) := by
  refine ⟨rfl, fun rs => ⟨rfl, ?_⟩⟩
  simp [lj_U_vec]

/-- C1 witness at r = 1, eps = 2, sig = 3. -/
theorem lj_U_formula_and_elementwise_witness :
    (0 : ℝ) < 1 ∧
    (lj_U 1 2 3 = 4 * 2 * (((3 : ℝ) / 1) ^ 12 - ((3 : ℝ) / 1) ^ 6) ∧
      (∀ rs : List ℝ,
        lj_U_vec rs 2 3
          = rs.map (fun x => 4 * 2 * (((3 : ℝ) / x) ^ 12 - ((3 : ℝ) / x) ^ 6)) ∧
        (lj_U_vec rs 2 3).length = rs.length)) :=
  ⟨one_pos, lj_U_formula_and_elementwise 1 2 3 one_pos⟩

/-! ## C5: the potential vanishes at r = sigma -/

/-- C5: for every eps > 0 and sig > 0, lj_U sig eps sig = 0. -/
theorem potential_zero_at_sigma (eps sig : ℝ) (heps : 0 < eps) (hsig : 0 < sig) :
    lj_U sig eps sig = 0 := by
  unfold lj_U
  rw [div_self hsig.ne']
  ring

/-- C5 witness at eps = 1, sig = 1. -/
theorem potential_zero_at_sigma_witness :
    (0 : ℝ) < 1 ∧ lj_U (1 : ℝ) 1 1 = 0 :=
  ⟨one_pos, potential_zero_at_sigma 1 1 one_pos one_pos⟩

/-! ## C10: homogeneity in eps -/

/-- C10: the potential is homogeneous of degree one in eps:
lj_U r eps sig = eps * lj_U r 1 sig, and lj_U r 0 sig = 0. -/
theorem lj_U_homogeneous_in_eps (r eps sig : ℝ) (hr : 0 < r) (hsig : 0 < sig) :
    lj_U r eps sig = eps * lj_U r 1 sig ∧ lj_U r 0 sig = 0 := by
  unfold lj_U
  constructor <;> ring

/-- C10 witness at r = 1, eps = 2, sig = 1. -/
theorem lj_U_homogeneous_in_eps_witness :
    (0 : ℝ) < 1 ∧
    (lj_U (1 : ℝ) 2 1 = 2 * lj_U 1 1 1 ∧ lj_U (1 : ℝ) 0 1 = 0) :=
  ⟨one_pos, lj_U_homogeneous_in_eps 1 2 1 one_pos one_pos⟩

/-! ## C2: the curve sampler -/

/-- C2: for every sigma of at least 0.01, the sampler uses
r_lo = max(0.3*sigma, 0.01) and r_hi = 4*sigma and produces an evenly spaced
ordered sequence of exactly 1000 points, first element r_lo, last element
r_hi, with all consecutive differences equal (to the common step
(r_hi - r_lo)/999), and r_lo < r_hi. -/
theorem sampler_grid_spec (sig : ℚ) (hsig : 1 / 100 ≤ sig) :
    r_lo sig = max (0.3 * sig) 0.01 ∧
    r_hi sig = 4.0 * sig ∧
    (r_grid sig).length = 1000 ∧
    (r_grid sig).head? = some (r_lo sig) ∧
    (r_grid sig).getLast? = some (r_hi sig) ∧
    (∀ i : ℕ, i + 1 < 1000 →
      (r_grid sig).getD (i + 1) 0 - (r_grid sig).getD i 0
        = (r_hi sig - r_lo sig) / 999) ∧
    r_lo sig < r_hi sig := by
  have hlen : (r_grid sig).length = 1000 := linspace_length _ _ _
  refine ⟨rfl, rfl, hlen, ?_, ?_, ?_, ?_⟩
  · rw [List.head?_eq_getElem? (r_grid sig), r_grid,
      linspace_getElem? _ _ (by norm_num : (0 : ℕ) < 1000)]
    norm_num
  · rw [List.getLast?_eq_getElem? (r_grid sig), hlen]
    rw [show (1000 - 1 : ℕ) = 999 from rfl, r_grid,
      linspace_getElem? _ _ (by norm_num : (999 : ℕ) < 1000)]
    congr 1
    push_cast
    ring_nf
  · intro i hi
    have h1 : i < 1000 := by omega
    rw [r_grid_getD sig hi, r_grid_getD sig h1]
    push_cast
    rw [show (1000 : ℚ) - 1 = 999 from by norm_num]
    field_simp
    ring
  · rw [r_lo, r_hi]
    apply max_lt <;> nlinarith

/-- C2 witness at sigma = 1. -/
theorem sampler_grid_spec_witness :
    (1 : ℚ) / 100 ≤ 1 ∧
    (r_lo 1 = max (0.3 * 1) 0.01 ∧
      r_hi 1 = 4.0 * 1 ∧
      (r_grid 1).length = 1000 ∧
      (r_grid 1).head? = some (r_lo 1) ∧
      (r_grid 1).getLast? = some (r_hi 1) ∧
      (∀ i : ℕ, i + 1 < 1000 →
        (r_grid 1).getD (i + 1) 0 - (r_grid 1).getD i 0
          = (r_hi 1 - r_lo 1) / 999) ∧
      r_lo 1 < r_hi 1) :=
  ⟨by norm_num, sampler_grid_spec 1 (by norm_num)⟩

/-! ## C7: the grid stays strictly positive, the division never faults -/

/-- C7: for every sigma of at least 0.01 (the widget minimum, including the
boundary sigma = 0.01) every point of the 1000-point sample grid is strictly
positive, and the fault-sensitive evaluation of lj_U at each grid point
succeeds (never divides by zero) with the pure formula value. -/
theorem grid_positive_no_div_fault (eps sig : ℚ) (hsig : 1 / 100 ≤ sig) :
    ∀ x ∈ r_grid sig, 0 < x ∧ lj_U_checked x eps sig = some (lj_U x eps sig) := by
  intro x hx
  have hmem : ∃ i : ℕ, i < 1000 ∧
      r_lo sig + (r_hi sig - r_lo sig) * (i : ℚ) / (((1000 : ℕ) : ℚ) - 1) = x := by
    simpa [r_grid, linspace, List.mem_map, List.mem_range] using hx
  obtain ⟨i, hi, hx_eq⟩ := hmem
  have hlo : (1 : ℚ) / 100 ≤ r_lo sig :=
    le_trans (by norm_num) (le_max_right (0.3 * sig) 0.01)
  have hdiff : 0 ≤ r_hi sig - r_lo sig := by
    rw [r_lo, r_hi, sub_nonneg]
    apply max_le <;> nlinarith
  have hstep : 0 ≤ (r_hi sig - r_lo sig) * (i : ℚ) / (((1000 : ℕ) : ℚ) - 1) := by
    rw [show (((1000 : ℕ) : ℚ) - 1) = 999 from by norm_num]
    positivity
  have hpos : 0 < x := by
    rw [← hx_eq]
    linarith
  refine ⟨hpos, ?_⟩
  rw [lj_U_checked, npdiv, if_neg hpos.ne']
  simp [lj_U]

/-- C7 witness at the boundary sigma = 0.01 with eps = 1. -/
theorem grid_positive_no_div_fault_witness :
    (1 : ℚ) / 100 ≤ 1 / 100 ∧
    ∀ x ∈ r_grid (1 / 100),
      0 < x ∧ lj_U_checked x 1 (1 / 100) = some (lj_U x 1 (1 / 100)) :=
  ⟨le_refl ((1 : ℚ) / 100), grid_positive_no_div_fault 1 (1 / 100) (le_refl ((1 : ℚ) / 100))⟩

/-! ## C3: the CSV export -/

theorem range_map_getD {B : Type} (f : ℕ → B) (d : B) {i n : ℕ} (h : i < n) :
    ((List.range n).map f).getD i d = f i := by
  rw [List.getD_eq_getElem?_getD, List.getElem?_map, List.getElem?_range h,
    Option.map_some']
  rfl

theorem r_grid_eq_map (sig : ℚ) :
    r_grid sig = (List.range 1000).map (gridPoint sig) := rfl

theorem U_grid_eq_map (eps sig : ℚ) :
    U_grid eps sig
      = (List.range 1000).map (fun i => lj_U (gridPoint sig i) eps sig) := by
  rw [U_grid, lj_U_vec, r_grid_eq_map, List.map_map]
  rfl

theorem csvRows_eq_map (eps sig : ℚ) :
    csvRows eps sig = (List.range 1000).map
      (fun i => csvRow (gridPoint sig i, lj_U (gridPoint sig i) eps sig)) := by
  rw [csvRows, U_grid_eq_map, r_grid_eq_map, List.zip_map', List.map_map]
  rfl

theorem gridPoint_zero (sig : ℚ) : gridPoint sig 0 = r_lo sig := by
  rw [gridPoint]
  norm_num

theorem gridPoint_last (sig : ℚ) : gridPoint sig 999 = r_hi sig := by
  rw [gridPoint]
  push_cast
  ring_nf

/-- C3: the CSV export is the header row "r_nm,U_eV" followed by exactly 1000
data rows, newline-separated; data row i is the i-th point of the very grid
and potential values used for the chart (r to 6 decimal places, U to 8), in
grid order; the first and last rows carry r_lo and r_hi at that precision. -/
theorem csv_export_spec (eps sig : ℚ) (hsig : 1 / 100 ≤ sig) :
    csv_text eps sig = "r_nm,U_eV\n" ++ String.join (csvRows eps sig) ∧
    (csvRows eps sig).length = 1000 ∧
    (∀ i : ℕ, i < 1000 →
      (csvRows eps sig).getD i ""
        = fmtFixed 6 ((r_grid sig).getD i 0) ++ ","
            ++ fmtFixed 8 ((U_grid eps sig).getD i 0) ++ "\n") ∧
    (csvRows eps sig).getD 0 ""
      = fmtFixed 6 (r_lo sig) ++ "," ++ fmtFixed 8 (lj_U (r_lo sig) eps sig) ++ "\n" ∧
    (csvRows eps sig).getD 999 ""
      = fmtFixed 6 (r_hi sig) ++ "," ++ fmtFixed 8 (lj_U (r_hi sig) eps sig) ++ "\n" := by
  refine ⟨rfl, ?_, ?_, ?_, ?_⟩
  · rw [csvRows_eq_map, List.length_map, List.length_range]
  · intro i hi
    rw [csvRows_eq_map, range_map_getD _ _ hi, r_grid_eq_map,
      range_map_getD _ _ hi, U_grid_eq_map, range_map_getD _ _ hi]
    rfl
  · rw [csvRows_eq_map, range_map_getD _ _ (by norm_num : (0 : ℕ) < 1000),
      gridPoint_zero]
    rfl
  · rw [csvRows_eq_map, range_map_getD _ _ (by norm_num : (999 : ℕ) < 1000),
      gridPoint_last]
    rfl

/-- C3 witness at eps = 1, sigma = 1. -/
theorem csv_export_spec_witness :
    (1 : ℚ) / 100 ≤ 1 ∧
    (csv_text 1 1 = "r_nm,U_eV\n" ++ String.join (csvRows 1 1) ∧
      (csvRows 1 1).length = 1000 ∧
      (∀ i : ℕ, i < 1000 →
        (csvRows 1 1).getD i ""
          = fmtFixed 6 ((r_grid 1).getD i 0) ++ ","
              ++ fmtFixed 8 ((U_grid 1 1).getD i 0) ++ "\n") ∧
      (csvRows 1 1).getD 0 ""
        = fmtFixed 6 (r_lo 1) ++ "," ++ fmtFixed 8 (lj_U (r_lo 1) 1 1) ++ "\n" ∧
      (csvRows 1 1).getD 999 ""
        = fmtFixed 6 (r_hi 1) ++ "," ++ fmtFixed 8 (lj_U (r_hi 1) 1 1) ++ "\n") :=
  ⟨by norm_num, csv_export_spec 1 1 (by norm_num)⟩

/-! ## C9: the pipeline is deterministic -/

/-- C9: the pipeline is a pure function of the Parameters snapshot: two runs
with identical Parameters give identical sample grids, potential values, and
CSV text. -/
theorem pipeline_deterministic (p q : Params) (h : p = q) :
    pipeline p = pipeline q := by
  rw [h]

/-- C9 witness at the Neon defaults of the sidebar. -/
theorem pipeline_deterministic_witness :
    Params.mk 0.0103 0.2740 0.350 = Params.mk 0.0103 0.2740 0.350 ∧
    pipeline (Params.mk 0.0103 0.2740 0.350)
      = pipeline (Params.mk 0.0103 0.2740 0.350) :=
  ⟨rfl, pipeline_deterministic (Params.mk 0.0103 0.2740 0.350)
    (Params.mk 0.0103 0.2740 0.350) rfl⟩

/-! ## Real-analysis helpers: the shape of U via t = (sig/r)^6 -/

theorem ljU_as_t (eps sig s : ℝ) :
    lj_U s eps sig = 4 * eps * (((sig / s) ^ 6) ^ 2 - (sig / s) ^ 6) := by
  unfold lj_U
  ring

theorem rpow_sixth_pos : (0 : ℝ) < 2 ^ ((1 : ℝ) / 6) :=
  Real.rpow_pos_of_pos (by norm_num) _

theorem one_lt_rpow_sixth : (1 : ℝ) < 2 ^ ((1 : ℝ) / 6) := by
  rw [show (1 : ℝ) = 2 ^ (0 : ℝ) by simp]
  exact (Real.rpow_lt_rpow_left_iff (by norm_num)).mpr (by norm_num)

theorem rpow_sixth_pow_six : ((2 : ℝ) ^ ((1 : ℝ) / 6)) ^ (6 : ℕ) = 2 := by
  rw [← Real.rpow_natCast ((2 : ℝ) ^ ((1 : ℝ) / 6)) 6,
    ← Real.rpow_mul (by norm_num : (0 : ℝ) ≤ 2)]
  norm_num

theorem r_min_pos {sig : ℝ} (hsig : 0 < sig) : 0 < r_min sig := by
  rw [r_min]
  exact mul_pos rpow_sixth_pos hsig

theorem sigma_lt_r_min {sig : ℝ} (hsig : 0 < sig) : sig < r_min sig := by
  rw [r_min]
  exact (lt_mul_iff_one_lt_left hsig).mpr one_lt_rpow_sixth

theorem t_at_r_min {sig : ℝ} (hsig : 0 < sig) : (sig / r_min sig) ^ 6 = 1 / 2 := by
  have h1 : sig / (2 ^ ((1 : ℝ) / 6) * sig) = (2 ^ ((1 : ℝ) / 6))⁻¹ := by
    rw [mul_comm, ← div_div, div_self hsig.ne', one_div]
  rw [r_min, h1, inv_pow, rpow_sixth_pow_six]
  norm_num

theorem t_strictAnti {sig : ℝ} (hsig : 0 < sig) {a b : ℝ} (ha : 0 < a)
    (hab : a < b) : (sig / b) ^ 6 < (sig / a) ^ 6 := by
  have h1 : sig / b < sig / a := div_lt_div_of_pos_left hsig ha hab
  have hb : 0 < b := ha.trans hab
  exact pow_lt_pow_left₀ h1 (by positivity) (by norm_num)

theorem ljU_at_r_min (eps : ℝ) {sig : ℝ} (hsig : 0 < sig) :
    lj_U (r_min sig) eps sig = -eps := by
  rw [ljU_as_t, t_at_r_min hsig]
  ring

/-! ## C4: the well depth -/

/-- C4: for every eps > 0 and sig > 0, the potential at r_min = 2^(1/6)*sig
equals the derived well-depth value U_min, which is -eps. -/
theorem potential_at_r_min_is_well_depth (eps sig : ℝ) (heps : 0 < eps)
    (hsig : 0 < sig) :
    lj_U (r_min sig) eps sig = U_min eps ∧ U_min eps = -eps :=
  ⟨by rw [ljU_at_r_min eps hsig, U_min], rfl⟩

/-- C4 witness at eps = 1, sig = 1. -/
theorem potential_at_r_min_is_well_depth_witness :
    (0 : ℝ) < 1 ∧
    (lj_U (r_min 1) 1 1 = U_min 1 ∧ U_min (1 : ℝ) = -1) :=
  ⟨one_pos, potential_at_r_min_is_well_depth 1 1 one_pos one_pos⟩

/-! ## C6: shape of the potential curve -/

/-- C6: for every eps > 0 and sig > 0, the potential is strictly decreasing on
(0, r_min) and strictly increasing on (r_min, infinity); r_min is the unique
minimizer over the positive reals; U is negative for every r above sigma
(hence in particular above r_min, as sigma < r_min); and U tends to 0 at
infinity. -/
theorem potential_shape (eps sig : ℝ) (heps : 0 < eps) (hsig : 0 < sig) :
    (∀ a b : ℝ, 0 < a → a < b → b < r_min sig →
      lj_U b eps sig < lj_U a eps sig) ∧
    (∀ a b : ℝ, r_min sig < a → a < b →
      lj_U a eps sig < lj_U b eps sig) ∧
    (∀ s : ℝ, 0 < s → s ≠ r_min sig →
      lj_U (r_min sig) eps sig < lj_U s eps sig) ∧
    (∀ s : ℝ, sig < s → lj_U s eps sig < 0) ∧
    sig < r_min sig ∧
    Tendsto (fun s : ℝ => lj_U s eps sig) atTop (nhds 0) := by
  have hrmin : 0 < r_min sig := r_min_pos hsig
  refine ⟨?_, ?_, ?_, ?_, sigma_lt_r_min hsig, ?_⟩
  · intro a b ha hab hbr
    have hb : 0 < b := ha.trans hab
    have htab : (sig / b) ^ 6 < (sig / a) ^ 6 := t_strictAnti hsig ha hab
    have htb : 1 / 2 < (sig / b) ^ 6 := by
      have h := t_strictAnti hsig hb hbr
      rwa [t_at_r_min hsig] at h
    rw [ljU_as_t, ljU_as_t]
    have key : 0 < eps * ((sig / a) ^ 6 - (sig / b) ^ 6)
        * ((sig / a) ^ 6 + (sig / b) ^ 6 - 1) := by
      apply mul_pos (mul_pos heps (sub_pos.mpr htab))
      linarith
    nlinarith [key]
  · intro a b har hab
    have ha : 0 < a := hrmin.trans har
    have hb : 0 < b := ha.trans hab
    have htab : (sig / b) ^ 6 < (sig / a) ^ 6 := t_strictAnti hsig ha hab
    have hta : (sig / a) ^ 6 < 1 / 2 := by
      have h := t_strictAnti hsig hrmin har
      rwa [t_at_r_min hsig] at h
    have htb0 : (0 : ℝ) < (sig / b) ^ 6 := by positivity
    rw [ljU_as_t, ljU_as_t]
    have key : 0 < eps * ((sig / a) ^ 6 - (sig / b) ^ 6)
        * (1 - (sig / a) ^ 6 - (sig / b) ^ 6) := by
      apply mul_pos (mul_pos heps (sub_pos.mpr htab))
      linarith
    nlinarith [key]
  · intro s hs hne
    have htne : (sig / s) ^ 6 ≠ 1 / 2 := by
      rcases lt_trichotomy s (r_min sig) with h | h | h
      · have h2 := t_strictAnti hsig hs h
        rw [t_at_r_min hsig] at h2
        exact ne_of_gt h2
      · exact absurd h hne
      · have h2 := t_strictAnti hsig hrmin h
        rw [t_at_r_min hsig] at h2
        exact ne_of_lt h2
    have hsub : (sig / s) ^ 6 - 1 / 2 ≠ 0 := sub_ne_zero.mpr htne
    have hsq : 0 < ((sig / s) ^ 6 - 1 / 2) ^ 2 := pow_two_pos_of_ne_zero hsub
    rw [ljU_at_r_min eps hsig, ljU_as_t]
    nlinarith [mul_pos heps hsq]
  · intro s hs
    have hs0 : 0 < s := hsig.trans hs
    have hdiv1 : sig / s < 1 := (div_lt_one hs0).mpr hs
    have ht1 : (sig / s) ^ 6 < 1 := by
      apply pow_lt_one₀ (by positivity) hdiv1 (by norm_num)
    have ht0 : (0 : ℝ) < (sig / s) ^ 6 := by positivity
    rw [ljU_as_t]
    nlinarith [mul_pos heps (mul_pos ht0 (sub_pos.mpr ht1))]
  · have hdiv : Tendsto (fun s : ℝ => sig / s) atTop (nhds 0) :=
      Tendsto.div_atTop tendsto_const_nhds tendsto_id
    have hcont : Continuous fun x : ℝ => 4 * eps * (x ^ 12 - x ^ 6) := by
      continuity
    have hcomp := (hcont.tendsto 0).comp hdiv
    have hval : (4 : ℝ) * eps * ((0 : ℝ) ^ 12 - (0 : ℝ) ^ 6) = 0 := by norm_num
    rw [hval] at hcomp
    simpa [Function.comp, lj_U] using hcomp

/-- C6 witness at eps = 1, sig = 1. -/
theorem potential_shape_witness :
    (0 : ℝ) < 1 ∧
    ((∀ a b : ℝ, 0 < a → a < b → b < r_min 1 →
        lj_U b 1 1 < lj_U a 1 1) ∧
      (∀ a b : ℝ, r_min 1 < a → a < b →
        lj_U a 1 1 < lj_U b 1 1) ∧
      (∀ s : ℝ, 0 < s → s ≠ r_min 1 →
        lj_U (r_min 1) 1 1 < lj_U s 1 1) ∧
      (∀ s : ℝ, 1 < s → lj_U s 1 1 < 0) ∧
      (1 : ℝ) < r_min 1 ∧
      Tendsto (fun s : ℝ => lj_U s 1 1) atTop (nhds 0)) :=
  ⟨one_pos, potential_shape 1 1 one_pos one_pos⟩

/-! ## C8: fault conditions of the potential evaluation -/

/-- C8 counterexample: the claim that every sigma or r at or below zero
faults is false on the code: at r = -1 (eps = 1, sig = 1) and at sig = -1
(r = 1, eps = 1) the evaluation succeeds, because the exponents 12 and 6 are
even integers, so a negative quotient is no fault; both runs return 0. -/
theorem lj_U_checked_total_on_negative :
    lj_U_checked (-1) 1 1 = some 0 ∧ lj_U_checked 1 1 (-1) = some 0 := by
  constructor <;> norm_num [lj_U_checked, npdiv]

/-- C8 amended: the only latent failure mode of the potential evaluation is a
zero distance r, where the quotient sig / r divides by zero; for every
nonzero r (negative included) and every sigma (zero and negative included)
the evaluation succeeds and returns the pure formula value. -/
theorem lj_U_checked_fault_iff_r_zero (eps sig r : ℚ) :
    lj_U_checked r eps sig = if r = 0 then none else some (lj_U r eps sig) := by
  rw [lj_U_checked, npdiv]
  by_cases h : r = 0
  · simp [h]
  · simp [h, lj_U]
